import Mathlib

/-!
# Verification of the citation-plugin bibliography layer

Shallow embedding of the bibliography ingestion and lookup layer of the
citation plugin (`main.ts`, `util.ts`), together with the parts of the data
model (`Library`, raw records) that `main.ts` consumes.  External
collaborators (the parser `loadEntries`, the format adapters, the template
engine) are passed in as parameters; JavaScript runtime behaviours
(`Object.fromEntries`, property-key coercion, truthiness, `path.resolve`)
are embedded explicitly.
-/

set_option autoImplicit false

namespace Citations

/-- The configured export format (`settings.citationExportFormat` in
`main.ts`): either `'biblatex'` or `'csl-json'`. -/
inductive Format where
  | biblatex
  | cslJson
deriving DecidableEq, Repr

/-- The key-field selection of `CitationPlugin.loadLibrary` (the `switch` on
`citationExportFormat`): `idKey = 'key'` for BibLaTeX and `idKey = 'id'` for
CSL-JSON. -/
def idKey : Format → String
  | .biblatex => "key"
  | .cslJson => "id"

/-- A raw parsed bibliography record (`EntryData` in the source): a JavaScript
object, embedded as an association list of string fields.  `loadLibrary`
indexes it dynamically (`(e as IIndexable)[idKey]`). -/
structure RawRecord where
  fields : List (String × String)
deriving DecidableEq, Repr

/-- Field lookup on a raw record: the first binding of the field name, `none`
for an absent field (JavaScript `undefined`). -/
def RawRecord.get (r : RawRecord) (k : String) : Option String :=
  match r.fields.find? (fun p => p.1 == k) with
  | some p => some p.2
  | none => none

/-- The citekey `loadLibrary` extracts from a record:
`(e as IIndexable)[idKey]` used as a property key.  An absent field is
JavaScript `undefined`, which `Object.fromEntries` coerces to the property
key `"undefined"`. -/
def jsKey (fmt : Format) (r : RawRecord) : String :=
  (r.get (idKey fmt)).getD "undefined"

/-- One step of JavaScript object construction: assigning `p.1 ↦ p.2`
replaces the value of an existing property in place and appends a new
property at the end.  Keys stay unique, as in a JavaScript object. -/
def upsert {α : Type} (p : String × α) : List (String × α) → List (String × α)
  | [] => [p]
  | q :: qs => if q.1 = p.1 then (q.1, p.2) :: qs else q :: upsert p qs

/-- `Object.fromEntries`: builds an object from a list of key/value pairs,
assigning them in list order, so a later pair with the same key overwrites
an earlier one. -/
def objectFromEntries {α : Type} (ps : List (String × α)) : List (String × α) :=
  ps.foldl (fun acc p => upsert p acc) []

/-- Modelled from the spec: the `Library` class of `types.ts` is not in the
sources; §3 specifies it as a mapping from citekey to `Entry` whose size is
the entry count.  The entry type is a parameter because the `Entry`
adapters also live in `types.ts`. -/
structure Library (E : Type) where
  entries : List (String × E)
deriving DecidableEq, Repr

/-- Modelled from the spec: `Library` size is its entry count. -/
def Library.size {E : Type} (lib : Library E) : Nat :=
  lib.entries.length

/-- Lookup of a citekey's entry in the mapping. -/
def Library.get {E : Type} (lib : Library E) (k : String) : Option E :=
  match lib.entries.find? (fun p => p.1 == k) with
  | some p => some p.2
  | none => none

/-- The Library build step of `loadLibrary` (`main.ts` lines 211–215):
`new Library(Object.fromEntries(entries.map((e) => [(e as IIndexable)[idKey], new adapter(e)])))`.
The format adapter constructor is the parameter `adapt`. -/
def buildLibrary {E : Type} (fmt : Format) (adapt : RawRecord → E)
    (records : List RawRecord) : Library E :=
  ⟨objectFromEntries (records.map (fun e => (jsKey fmt e, adapt e)))⟩

/-- First-match association lookup, as performed by `Library.get`. -/
def alookup {α : Type} (k : String) : List (String × α) → Option α
  | [] => none
  | p :: ps => if p.1 = k then some p.2 else alookup k ps

/-- The value of the last pair carrying key `k`, if any. -/
def lastVal {α : Type} (k : String) : List (String × α) → Option α
  | [] => none
  | p :: ps =>
    match lastVal k ps with
    | some v => some v
    | none => if p.1 = k then some p.2 else none

/-- Keys of an association list. -/
def keys {α : Type} (l : List (String × α)) : List String :=
  l.map Prod.fst

/-! ## The loader orchestrator (`CitationPlugin.loadLibrary`) -/

/-- The plugin settings fields `loadLibrary` consults (`settings.ts` is not in
the sources; the two fields are read directly in `main.ts`). -/
structure PluginSettings where
  citationExportPath : String
  citationExportFormat : Format
deriving DecidableEq, Repr

/-- Observable outcome of one `loadLibrary` execution: the returned value
(`none` models the JavaScript `null` return), the number of
`loadErrorNotifier.show()` calls, and the number of `console.warn` calls. -/
structure LoadOutcome (E : Type) where
  result : Option (Library E)
  notifierShowCalls : Nat
  consoleWarns : Nat
deriving DecidableEq, Repr

/-- `CitationPlugin.loadLibrary` (`main.ts` lines 183–233).

* `settings.citationExportPath` truthiness guard: the empty string is falsy,
  so an unset path takes the `else` branch (`console.warn`, return `null`).
* `parsed` stands for the whole fallible prefix of the `try` block:
  `FileSystemAdapter.readLocalFile` + UTF-8 decoding + `loadEntries`
  (the parser lives in `types.ts`, outside the sources) + the adapter
  constructors; `Except.error` is any exception thrown there.
* `prevLibraryPresent` records whether `this.library` currently holds a
  non-null object: the success log reads `this.library.size` (not
  `newLibrary.size`), so when the previous library is `null`/`undefined`
  that read throws a `TypeError`, which the same `catch` turns into a
  notification and a `null` return.
* Any caught exception runs `console.error` + `this.loadErrorNotifier.show()`
  exactly once and returns `null`. -/
def loadLibrary {E : Type} (settings : PluginSettings)
    (prevLibraryPresent : Bool) (parsed : Except String (List RawRecord))
    (adapt : RawRecord → E) : LoadOutcome E :=
  if settings.citationExportPath ≠ "" then
    match parsed with
    | .ok entries =>
      if prevLibraryPresent then
        { result := some (buildLibrary settings.citationExportFormat adapt entries),
          notifierShowCalls := 0, consoleWarns := 0 }
      else
        { result := none, notifierShowCalls := 1, consoleWarns := 0 }
    | .error _ => { result := none, notifierShowCalls := 1, consoleWarns := 0 }
  else
    { result := none, notifierShowCalls := 0, consoleWarns := 1 }

/-! ## The `Notifier` (`util.ts`) -/

/-- State of a `Notifier`: the currently displayed notice's message, if one is
still on screen (`currentNotice` in `util.ts`). -/
structure NotifierState where
  currentNotice : Option String
deriving DecidableEq, Repr

/-- Observable outcome of one `Notifier.show` call: the returned value
(`some false` for the explicit `return false`; `none` models the
`undefined` returned when the function falls off its end after displaying
the notice), the updated state, and the list of notices created via
`new Notice(...)` during the call. -/
structure ShowOutcome where
  returned : Option Bool
  state : NotifierState
  createdNotices : List String
deriving DecidableEq, Repr

/-- `Notifier.show` (`util.ts` lines 27–52).  `message || this.defaultMessage`
replaces a missing (`undefined`) or empty (falsy) argument by the default.
If a notice of this category is still displayed, the call returns `false`
without creating anything; otherwise it creates and records the notice. -/
def Notifier.show (defaultMessage : String) (st : NotifierState)
    (message : Option String) : ShowOutcome :=
  let msg := match message with
    | some m => if m ≠ "" then m else defaultMessage
    | none => defaultMessage
  match st.currentNotice with
  | some _ => { returned := some false, state := st, createdNotices := [] }
  | none =>
    { returned := none, state := { currentNotice := some msg },
      createdNotices := [msg] }

/-! ## Path resolution (`CitationPlugin.resolveLibraryPath`) -/

/-- POSIX absoluteness test used by Node's `path.resolve`: a path is absolute
iff it starts with `/`. -/
def isAbsolute (s : String) : Bool :=
  match s.data with
  | [] => false
  | c :: _ => c == '/'

/-- Splitting a character sequence at every `/` (the segment scan of Node's
`normalizeString`); `cur` accumulates the current segment in reverse. -/
def splitSlashAux : List Char → List Char → List (List Char)
  | [], cur => [cur.reverse]
  | c :: cs, cur =>
    if c = '/' then cur.reverse :: splitSlashAux cs []
    else splitSlashAux cs (c :: cur)

/-- The `/`-separated segments of a path. -/
def splitSlash (s : String) : List (List Char) :=
  splitSlashAux s.data []

/-- One step of Node's `normalizeString`: skip empty and `.` segments, let
`..` pop the last collected segment (at the root it is dropped, since
`path.resolve` produces an absolute result), and collect any other
segment. -/
def normStep (acc : List (List Char)) (seg : List Char) : List (List Char) :=
  if seg = [] ∨ seg = ['.'] then acc
  else if seg = ['.', '.'] then acc.dropLast
  else acc ++ [seg]

/-- Joining path segments with `/` separators. -/
def joinSlash : List (List Char) → List Char
  | [] => []
  | [s] => s
  | s :: rest => s ++ '/' :: joinSlash rest

/-- Normalization of an absolute POSIX path as performed inside
`path.resolve`: split on `/`, process the segments, and reassemble behind
a leading `/`.  The result has no `.`/`..` segments, no repeated
separators, and no trailing separator. -/
def normalizeAbsolute (s : String) : String :=
  ⟨'/' :: joinSlash ((splitSlash s).foldl normStep [])⟩

/-- Node's `path.resolve(vaultRoot, rawPath)` for an absolute `vaultRoot`
(POSIX): an absolute `rawPath` is taken alone, an empty `rawPath` is
skipped, otherwise the two are joined; the combination is then
normalized. -/
def pathResolve (vaultRoot rawPath : String) : String :=
  let combined :=
    if isAbsolute rawPath then rawPath
    else if rawPath = "" then vaultRoot
    else vaultRoot ++ "/" ++ rawPath
  normalizeAbsolute combined

/-- `CitationPlugin.resolveLibraryPath` (`main.ts` lines 175–181):
`path.resolve(vaultRoot, rawPath)`, where `vaultRoot` is the vault base
path (or `/` when the vault has no filesystem adapter). -/
def resolveLibraryPath (vaultRoot rawPath : String) : String :=
  pathResolve vaultRoot rawPath

/-! ## The source watcher (`CitationPlugin.init`) -/

/-- The `stabilityThreshold` passed to chokidar's `awaitWriteFinish` in
`CitationPlugin.init` (`main.ts` lines 89–93). -/
def watchStabilityThreshold : Nat := 500

/-- Modelled from the spec: chokidar's `awaitWriteFinish` debouncing is not in
the sources (chokidar is an external dependency configured in
`CitationPlugin.init`); §4.4 specifies it as event quiescence — after a
change event at time `t`, a reload is signalled at `t + w` iff no further
change event falls strictly inside the window `(t, t + w)`.  Event times
are in milliseconds. -/
def debounceSignals (events : List Nat) (w : Nat) : List Nat :=
  (events.filter (fun t => events.all (fun e => decide (e ≤ t ∨ t + w ≤ e)))).map
    (fun t => t + w)

/-! ## Concurrent loads (`CitationPlugin.init`) -/

/-- An event of the cooperative scheduler: a load being triggered (by the
watcher's `change` callback or the `update-bib-data` command), or an
in-flight load's `await` resuming, at which point its continuation runs
`this.library = <result>`.  The `id` distinguishes the loads; `result` is
the value the completed `loadLibrary` promise resolved to. -/
inductive LoadEvent (E : Type) where
  | trigger (id : Nat)
  | complete (id : Nat) (result : Option (Library E))

/-- Whether a scheduler event is a load completion. -/
def LoadEvent.isComplete {E : Type} : LoadEvent E → Bool
  | .trigger _ => false
  | .complete _ _ => true

/-- Single-threaded cooperative execution of a sequence of scheduler events
over the process-wide `this.library` reference: a trigger changes nothing
yet; a completion assigns its result to the reference. -/
def runEvents {E : Type} (lib : Option (Library E)) :
    List (LoadEvent E) → Option (Library E)
  | [] => lib
  | .trigger _ :: rest => runEvents lib rest
  | .complete _ r :: rest => runEvents r rest

/-! ## Note-title sanitization (`CitationPlugin.getTitleForCitekey`) -/

/-- The character class of `DISALLOWED_FILENAME_CHARACTERS_RE` (`util.ts`
line 7): `/[*"\\/<>:|?]/g` (the regex escapes denote the two characters
backslash and forward slash). -/
def disallowedFilenameChar (c : Char) : Bool :=
  c == '*' || c == '"' || c == '\\' || c == '/' || c == '<' || c == '>' ||
    c == ':' || c == '|' || c == '?'

/-- `unsafeTitle.replace(DISALLOWED_FILENAME_CHARACTERS_RE, '_')`: a global
single-character-class regex with the literal replacement `'_'` replaces
every matching character of the string. -/
def replaceDisallowed (s : String) : String :=
  ⟨s.data.map (fun c => if disallowedFilenameChar c then '_' else c)⟩

/-- `CitationPlugin.getTitleForCitekey` (`main.ts` lines 242–248): renders the
configured title template over the citekey's template variables, then
sanitizes the result.  Template compilation (`handlebars`) composed with
`Library.getTemplateVariablesForCitekey` (`types.ts`, outside the sources)
is abstracted into `render`. -/
def getTitleForCitekey (render : String → String) (citekey : String) : String :=
  replaceDisallowed (render citekey)

/-! ## Association-list lemmas for the build step -/

theorem find?_eq_alookup {α : Type} (k : String) (l : List (String × α)) :
    (match l.find? (fun p => p.1 == k) with
     | some p => some p.2
     | none => (none : Option α)) = alookup k l := by
  induction l with
  | nil => rfl
  | cons p ps ih =>
    by_cases h : p.1 = k
    · simp [List.find?_cons, h, alookup]
    · have hb : (p.1 == k) = false := by simp [h]
      rw [List.find?_cons, hb]
      simpa [alookup, h] using ih

theorem Library.get_eq_alookup {E : Type} (lib : Library E) (k : String) :
    lib.get k = alookup k lib.entries :=
  find?_eq_alookup k lib.entries

theorem alookup_upsert {α : Type} (k : String) (p : String × α)
    (l : List (String × α)) :
    alookup k (upsert p l) = if p.1 = k then some p.2 else alookup k l := by
  induction l with
  | nil => simp [upsert, alookup]
  | cons q qs ih =>
    by_cases hq : q.1 = p.1
    · by_cases hk : p.1 = k
      · simp [upsert, hq, alookup, hq ▸ hk, hk]
      · simp [upsert, hq, alookup, hk, hq.symm ▸ hk, hq]
    · by_cases hk : p.1 = k
      · have hqk : ¬ q.1 = k := fun h => hq (h.trans hk.symm)
        simp [upsert, hq, alookup, hqk, ih, hk]
      · simp [upsert, hq, alookup, ih, hk]

theorem alookup_foldl_upsert {α : Type} (k : String) (ps : List (String × α)) :
    ∀ acc, alookup k (ps.foldl (fun acc p => upsert p acc) acc) =
      match lastVal k ps with
      | some v => some v
      | none => alookup k acc := by
  induction ps with
  | nil => intro acc; rfl
  | cons p ps ih =>
    intro acc
    rw [List.foldl_cons, ih (upsert p acc), alookup_upsert]
    cases h : lastVal k ps with
    | some v => simp [lastVal, h]
    | none =>
      by_cases hk : p.1 = k <;> simp [lastVal, h, hk]

theorem alookup_objectFromEntries {α : Type} (k : String)
    (ps : List (String × α)) :
    alookup k (objectFromEntries ps) = lastVal k ps := by
  unfold objectFromEntries
  rw [alookup_foldl_upsert]
  cases h : lastVal k ps <;> simp [alookup]

theorem lastVal_append {α : Type} (k : String) (as bs : List (String × α)) :
    lastVal k (as ++ bs) =
      match lastVal k bs with
      | some v => some v
      | none => lastVal k as := by
  induction as with
  | nil => cases h : lastVal k bs <;> simp [lastVal, h]
  | cons a as ih =>
    have hu : lastVal k ((a :: as) ++ bs) =
        match lastVal k (as ++ bs) with
        | some v => some v
        | none => if a.1 = k then some a.2 else none := rfl
    rw [hu, ih]
    cases h : lastVal k bs <;> cases h' : lastVal k as <;> simp [lastVal, h, h']

theorem lastVal_eq_none {α : Type} (k : String) (ps : List (String × α))
    (h : ∀ p ∈ ps, p.1 ≠ k) : lastVal k ps = none := by
  induction ps with
  | nil => rfl
  | cons p ps ih =>
    have hp : p.1 ≠ k := h p (List.mem_cons_self p ps)
    have ih' := ih (fun q hq => h q (List.mem_cons_of_mem p hq))
    simp [lastVal, ih', hp]

theorem keys_upsert {α : Type} (p : String × α) (l : List (String × α)) :
    keys (upsert p l) = if p.1 ∈ keys l then keys l else keys l ++ [p.1] := by
  induction l with
  | nil => simp [upsert, keys]
  | cons q qs ih =>
    rw [show upsert p (q :: qs) =
        if q.1 = p.1 then (q.1, p.2) :: qs else q :: upsert p qs from rfl]
    by_cases hq : q.1 = p.1
    · rw [if_pos hq]
      have hmem : p.1 ∈ keys (q :: qs) := by
        show p.1 ∈ q.1 :: keys qs
        rw [hq]
        exact List.mem_cons_self _ _
      rw [if_pos hmem]
      simp [keys]
    · rw [if_neg hq]
      have hne : p.1 ≠ q.1 := fun h => hq h.symm
      have hcons : keys (q :: upsert p qs) = q.1 :: keys (upsert p qs) := rfl
      have hcons2 : keys (q :: qs) = q.1 :: keys qs := rfl
      rw [hcons, ih, hcons2]
      by_cases hm : p.1 ∈ keys qs
      · rw [if_pos hm, if_pos (List.mem_cons_of_mem _ hm)]
      · rw [if_neg hm, if_neg (by simp [List.mem_cons, hne, hm])]
        rfl

theorem keys_toFinset_upsert {α : Type} (p : String × α)
    (l : List (String × α)) :
    (keys (upsert p l)).toFinset = insert p.1 (keys l).toFinset := by
  rw [keys_upsert]
  by_cases hmem : p.1 ∈ keys l
  · simp [hmem, Finset.insert_eq_self.2 (List.mem_toFinset.2 hmem)]
  · simp [hmem, Finset.insert_eq, Finset.union_comm]

theorem keys_nodup_upsert {α : Type} (p : String × α) (l : List (String × α))
    (h : (keys l).Nodup) : (keys (upsert p l)).Nodup := by
  rw [keys_upsert]
  by_cases hmem : p.1 ∈ keys l
  · simpa [hmem] using h
  · simp only [hmem, if_false]
    refine List.Nodup.append h (List.nodup_singleton p.1) ?_
    intro a ha ha'
    rw [List.mem_singleton] at ha'
    exact hmem (ha' ▸ ha)

theorem objectFromEntries_keys_nodup {α : Type} (ps : List (String × α)) :
    (keys (objectFromEntries ps)).Nodup := by
  unfold objectFromEntries
  suffices h : ∀ acc : List (String × α), (keys acc).Nodup →
      (keys (ps.foldl (fun acc p => upsert p acc) acc)).Nodup by
    exact h [] (by simp [keys])
  induction ps with
  | nil => intro acc hacc; exact hacc
  | cons p ps ih =>
    intro acc hacc
    exact ih (upsert p acc) (keys_nodup_upsert p acc hacc)

theorem objectFromEntries_keys_toFinset {α : Type} (ps : List (String × α)) :
    (keys (objectFromEntries ps)).toFinset = (ps.map Prod.fst).toFinset := by
  unfold objectFromEntries
  suffices h : ∀ acc : List (String × α),
      (keys (ps.foldl (fun acc p => upsert p acc) acc)).toFinset =
        (keys acc).toFinset ∪ (ps.map Prod.fst).toFinset by
    simpa [keys] using h []
  induction ps with
  | nil => intro acc; simp
  | cons p ps ih =>
    intro acc
    rw [List.foldl_cons, ih (upsert p acc), keys_toFinset_upsert]
    ext x
    simp only [Finset.mem_union, Finset.mem_insert, List.mem_toFinset,
      List.map_cons, List.mem_cons]
    tauto

theorem objectFromEntries_length {α : Type} (ps : List (String × α)) :
    (objectFromEntries ps).length = (ps.map Prod.fst).toFinset.card := by
  have hn := objectFromEntries_keys_nodup ps
  have hf := objectFromEntries_keys_toFinset ps
  calc (objectFromEntries ps).length
      = (keys (objectFromEntries ps)).length := by simp [keys]
    _ = (keys (objectFromEntries ps)).toFinset.card :=
        (List.toFinset_card_of_nodup hn).symm
    _ = (ps.map Prod.fst).toFinset.card := by rw [hf]

/-- Helper for the scheduler theorems: trigger events leave the library
reference untouched. -/
theorem runEvents_triggers_only {E : Type} (lib : Option (Library E))
    (rest : List (LoadEvent E)) (h : ∀ e ∈ rest, e.isComplete = false) :
    runEvents lib rest = lib := by
  induction rest with
  | nil => rfl
  | cons e rest ih =>
    cases e with
    | trigger i => exact ih (fun e' he' => h e' (List.mem_cons_of_mem _ he'))
    | complete i r =>
      exact absurd (h _ (List.mem_cons_self _ _)) (by simp [LoadEvent.isComplete])

/-! ## Claim theorems -/

/-- C1: for every batch of parsed records handed to the Library build step,
when the record `e` is the latest one in parse order carrying citekey `k`
(records before it, including other carriers of `k`, are `l₁`; the records
after it, none carrying `k`, are `l₂`), the built Library maps `k` to the
entry adapted from `e` (last-write-wins), and the Library's size equals the
number of distinct citekeys in the batch. -/
theorem library_build_last_write_wins {E : Type} (fmt : Format)
    (adapt : RawRecord → E) (l₁ l₂ : List RawRecord) (e : RawRecord)
    (k : String) (hk : jsKey fmt e = k) (hlast : ∀ e' ∈ l₂, jsKey fmt e' ≠ k) :
    (buildLibrary fmt adapt (l₁ ++ e :: l₂)).get k = some (adapt e) ∧
      (buildLibrary fmt adapt (l₁ ++ e :: l₂)).size =
        ((l₁ ++ e :: l₂).map (jsKey fmt)).toFinset.card := by
  constructor
  · rw [Library.get_eq_alookup]
    show alookup k (objectFromEntries
      ((l₁ ++ e :: l₂).map (fun r => (jsKey fmt r, adapt r)))) = some (adapt e)
    rw [alookup_objectFromEntries, List.map_append, lastVal_append]
    have hnone : lastVal k (l₂.map (fun r => (jsKey fmt r, adapt r))) = none := by
      refine lastVal_eq_none k _ ?_
      intro p hp
      obtain ⟨r, hr, rfl⟩ := List.mem_map.1 hp
      exact hlast r hr
    have h2 : lastVal k ((e :: l₂).map (fun r => (jsKey fmt r, adapt r))) =
        some (adapt e) := by
      show lastVal k ((jsKey fmt e, adapt e) ::
        l₂.map (fun r => (jsKey fmt r, adapt r))) = some (adapt e)
      simp [lastVal, hnone, hk]
    rw [h2]
  · show (objectFromEntries
      ((l₁ ++ e :: l₂).map (fun r => (jsKey fmt r, adapt r)))).length = _
    rw [objectFromEntries_length, List.map_map]
    rfl

/-- Witness for C1 at a concrete two-record batch sharing the citekey `a`. -/
theorem library_build_last_write_wins_witness :
    jsKey Format.cslJson ⟨[("id", "a"), ("t", "2")]⟩ = "a" ∧
      ((buildLibrary Format.cslJson (fun r => r.fields)
          [⟨[("id", "a"), ("t", "1")]⟩, ⟨[("id", "a"), ("t", "2")]⟩]).get "a" =
            some [("id", "a"), ("t", "2")] ∧
        (buildLibrary Format.cslJson (fun r => r.fields)
            [⟨[("id", "a"), ("t", "1")]⟩, ⟨[("id", "a"), ("t", "2")]⟩]).size =
          (([⟨[("id", "a"), ("t", "1")]⟩, ⟨[("id", "a"), ("t", "2")]⟩] :
              List RawRecord).map (jsKey Format.cslJson)).toFinset.card) :=
  ⟨by decide,
    library_build_last_write_wins Format.cslJson (fun r => r.fields)
      [⟨[("id", "a"), ("t", "1")]⟩] [] ⟨[("id", "a"), ("t", "2")]⟩ "a"
      (by decide) (fun e' h => absurd h (List.not_mem_nil e'))⟩

/-- C2: every failure inside `loadLibrary`'s `try` block (read, decode, parse
or adapt error) is caught; the load-error notifier's `show` is called
exactly once, no `console.warn` is issued, and the call returns `null`
instead of propagating the exception. -/
theorem loadLibrary_failure_notifies_once {E : Type}
    (settings : PluginSettings) (prev : Bool) (err : String)
    (adapt : RawRecord → E) (hpath : settings.citationExportPath ≠ "") :
    loadLibrary settings prev (.error err) adapt =
      { result := none, notifierShowCalls := 1, consoleWarns := 0 } := by
  unfold loadLibrary
  rw [if_pos hpath]

/-- Witness for C2 with a configured path and a failing read/parse. -/
theorem loadLibrary_failure_notifies_once_witness :
    (PluginSettings.mk "refs.json" Format.cslJson).citationExportPath ≠ "" ∧
      loadLibrary (PluginSettings.mk "refs.json" Format.cslJson) true
        (.error "ENOENT") (fun r => r.fields) =
        { result := none, notifierShowCalls := 1, consoleWarns := 0 } :=
  ⟨by decide,
    loadLibrary_failure_notifies_once (PluginSettings.mk "refs.json" Format.cslJson)
      true "ENOENT" (fun r => r.fields) (by decide)⟩

/-- C3: when every change event in `pre` happens before the final change event
`m` and within `w` milliseconds of it (a single burst with no quiescence
gap), the debounced watcher emits exactly one reload signal, at `m + w`:
it waits out the full stability window after the last event and coalesces
the whole burst into one trigger. -/
theorem debounce_coalesces_burst (pre : List Nat) (m w : Nat)
    (hband : ∀ t ∈ pre, t < m ∧ m < t + w) :
    debounceSignals (pre ++ [m]) w = [m + w] := by
  unfold debounceSignals
  rw [List.filter_append]
  have h1 : pre.filter
      (fun t => (pre ++ [m]).all (fun e => decide (e ≤ t ∨ t + w ≤ e))) = [] := by
    rw [List.filter_eq_nil_iff]
    intro t ht hall
    rw [List.all_eq_true] at hall
    have hm := hall m (by simp)
    rw [decide_eq_true_eq] at hm
    obtain ⟨ha, hb⟩ := hband t ht
    omega
  have h2 : [m].filter
      (fun t => (pre ++ [m]).all (fun e => decide (e ≤ t ∨ t + w ≤ e))) = [m] := by
    have hall : (pre ++ [m]).all (fun e => decide (e ≤ m ∨ m + w ≤ e)) = true := by
      rw [List.all_eq_true]
      intro e he
      rcases List.mem_append.1 he with h | h
      · exact decide_eq_true (Or.inl (le_of_lt (hband e h).1))
      · rw [List.mem_singleton] at h
        exact decide_eq_true (Or.inl (le_of_eq h))
    simp only [List.filter_cons, List.filter_nil, hall, if_true]
  rw [h1, h2]
  rfl

/-- Witness for C3: four change events inside one stability window yield a
single reload signal 500 ms after the last one. -/
theorem debounce_coalesces_burst_witness :
    (∀ t ∈ [0, 100, 300], t < 400 ∧ 400 < t + 500) ∧
      debounceSignals [0, 100, 300, 400] 500 = [900] :=
  ⟨by decide, debounce_coalesces_burst [0, 100, 300] 400 500 (by decide)⟩

/-- C4: a `Notifier.show` call made while a notice of this category is still
displayed is suppressed: it returns `false`, creates no new notice, and
leaves both the notifier state and the displayed notice unchanged. -/
theorem notifier_show_suppressed (d : String) (st : NotifierState)
    (m : Option String) (n : String) (h : st.currentNotice = some n) :
    Notifier.show d st m =
      { returned := some false, state := st, createdNotices := [] } := by
  simp [Notifier.show, h]

/-- Witness for C4: a second `show` while `"first"` is still displayed. -/
theorem notifier_show_suppressed_witness :
    (NotifierState.mk (some "first")).currentNotice = some "first" ∧
      Notifier.show "default" (NotifierState.mk (some "first")) (some "second") =
        { returned := some false, state := NotifierState.mk (some "first"),
          createdNotices := [] } :=
  ⟨rfl, notifier_show_suppressed "default" (NotifierState.mk (some "first"))
    (some "second") "first" rfl⟩

/-- C5: the citekey under which a loaded record is indexed comes from the
record's `key` field when the configured format is BibLaTeX and from its
`id` field when the configured format is CSL-JSON. -/
theorem citekey_field_by_format {E : Type} (adapt : RawRecord → E)
    (e : RawRecord) (kb ki : String) (hb : e.get "key" = some kb)
    (hi : e.get "id" = some ki) :
    (buildLibrary Format.biblatex adapt [e]).entries = [(kb, adapt e)] ∧
      (buildLibrary Format.cslJson adapt [e]).entries = [(ki, adapt e)] := by
  constructor
  · have hkey : jsKey Format.biblatex e = kb := by
      show (e.get "key").getD "undefined" = kb
      rw [hb]
      rfl
    show objectFromEntries ([e].map (fun r => (jsKey Format.biblatex r, adapt r))) = _
    simp [objectFromEntries, upsert, hkey]
  · have hkey : jsKey Format.cslJson e = ki := by
      show (e.get "id").getD "undefined" = ki
      rw [hi]
      rfl
    show objectFromEntries ([e].map (fun r => (jsKey Format.cslJson r, adapt r))) = _
    simp [objectFromEntries, upsert, hkey]

/-- Witness for C5 on a record carrying both a `key` and an `id` field. -/
theorem citekey_field_by_format_witness :
    (RawRecord.mk [("key", "K"), ("id", "I")]).get "key" = some "K" ∧
      ((buildLibrary Format.biblatex (fun r => r.fields)
          [⟨[("key", "K"), ("id", "I")]⟩]).entries =
            [("K", [("key", "K"), ("id", "I")])] ∧
        (buildLibrary Format.cslJson (fun r => r.fields)
            [⟨[("key", "K"), ("id", "I")]⟩]).entries =
          [("I", [("key", "K"), ("id", "I")])]) :=
  ⟨by decide,
    citekey_field_by_format (fun r => r.fields) ⟨[("key", "K"), ("id", "I")]⟩
      "K" "I" (by decide) (by decide)⟩

/-- C6 counterexample: the absolute input path `/a/` is not returned verbatim
by `resolveLibraryPath` — `path.resolve` normalizes it to `/a`. -/
theorem resolveLibraryPath_not_verbatim :
    isAbsolute "/a/" = true ∧ resolveLibraryPath "/vault" "/a/" = "/a" ∧
      resolveLibraryPath "/vault" "/a/" ≠ "/a/" := by
  refine ⟨by decide, by decide, by decide⟩

/-- C6 (amended): a relative path is resolved against the vault root; an
absolute path is used without consulting the root, but in `path.resolve`'s
normalized form (`.`/`..` segments collapsed, repeated and trailing
separators removed) rather than verbatim; an already-normalized absolute
path is returned verbatim. -/
theorem resolveLibraryPath_amended (root root₂ raw : String) :
    (isAbsolute raw = true →
        resolveLibraryPath root raw = normalizeAbsolute raw) ∧
      (isAbsolute raw = true →
        resolveLibraryPath root raw = resolveLibraryPath root₂ raw) ∧
      (isAbsolute raw = true → normalizeAbsolute raw = raw →
        resolveLibraryPath root raw = raw) ∧
      (isAbsolute raw = false → raw ≠ "" →
        resolveLibraryPath root raw = normalizeAbsolute (root ++ "/" ++ raw)) := by
  refine ⟨fun h => ?_, fun h => ?_, fun h h' => ?_, fun h h' => ?_⟩
  · simp [resolveLibraryPath, pathResolve, h]
  · simp [resolveLibraryPath, pathResolve, h]
  · simp [resolveLibraryPath, pathResolve, h, h']
  · simp [resolveLibraryPath, pathResolve, h, h']

/-- Witness for C6 (amended): an already-normalized absolute path comes back
verbatim, ignoring the vault root. -/
theorem resolveLibraryPath_amended_witness :
    isAbsolute "/lib/refs.bib" = true ∧
      resolveLibraryPath "/vault" "/lib/refs.bib" = "/lib/refs.bib" :=
  ⟨by decide, (resolveLibraryPath_amended "/vault" "/other" "/lib/refs.bib").2.2.1
    (by decide) (by decide)⟩

/-- C7: `loadLibrary` is deterministic in its input content — two successful
executions over the same parsed content and configuration return equal
Libraries, with identical key sets and identical entries under every
citekey. -/
theorem loadLibrary_deterministic {E : Type} (settings : PluginSettings)
    (prev₁ prev₂ : Bool) (parsed : Except String (List RawRecord))
    (adapt : RawRecord → E) (L₁ L₂ : Library E)
    (h₁ : (loadLibrary settings prev₁ parsed adapt).result = some L₁)
    (h₂ : (loadLibrary settings prev₂ parsed adapt).result = some L₂) :
    L₁ = L₂ ∧ ∀ k, L₁.get k = L₂.get k := by
  have key : ∀ (prev : Bool) (L : Library E),
      (loadLibrary settings prev parsed adapt).result = some L →
      ∃ entries, parsed = .ok entries ∧
        L = buildLibrary settings.citationExportFormat adapt entries := by
    intro prev L h
    unfold loadLibrary at h
    by_cases hp : settings.citationExportPath ≠ ""
    · rw [if_pos hp] at h
      cases parsed with
      | ok entries =>
        cases prev with
        | false => simp at h
        | true => exact ⟨entries, rfl, by simpa using h.symm⟩
      | error err => simp at h
    · rw [if_neg hp] at h
      simp at h
  obtain ⟨e₁, he₁, hL₁⟩ := key prev₁ L₁ h₁
  obtain ⟨e₂, he₂, hL₂⟩ := key prev₂ L₂ h₂
  have hee : e₁ = e₂ := by
    rw [he₁] at he₂
    exact Except.ok.inj he₂
  subst hee
  rw [hL₁, hL₂]
  exact ⟨rfl, fun k => rfl⟩

/-- Witness for C7: two successful loads of the same one-record content. -/
theorem loadLibrary_deterministic_witness :
    (loadLibrary (PluginSettings.mk "refs.json" Format.cslJson) true
        (.ok [⟨[("id", "a")]⟩]) (fun r => r.fields)).result =
      some ⟨[("a", [("id", "a")])]⟩ ∧
      (⟨[("a", [("id", "a")])]⟩ : Library (List (String × String))) =
        ⟨[("a", [("id", "a")])]⟩ :=
  ⟨by decide,
    (loadLibrary_deterministic (PluginSettings.mk "refs.json" Format.cslJson)
      true true (.ok [⟨[("id", "a")]⟩]) (fun r => r.fields)
      ⟨[("a", [("id", "a")])]⟩ ⟨[("a", [("id", "a")])]⟩
      (by decide) (by decide)).1⟩

/-- C8: under the single-threaded cooperative scheduler, each completing load
assigns its result to the process-wide library reference when it resumes,
so after any event sequence whose last completion is `complete id r` (any
further events being mere triggers), the final library reference is `r` —
last-completion-wins, regardless of the order in which the loads were
triggered. -/
theorem last_completion_wins {E : Type} (init : Option (Library E))
    (evs : List (LoadEvent E)) (id : Nat) (r : Option (Library E))
    (rest : List (LoadEvent E)) (hrest : ∀ e ∈ rest, e.isComplete = false) :
    runEvents init (evs ++ LoadEvent.complete id r :: rest) = r := by
  induction evs generalizing init with
  | nil => exact runEvents_triggers_only r rest hrest
  | cons e evs ih =>
    cases e with
    | trigger i => exact ih init
    | complete i r' => exact ih r'

/-- Witness for C8: the watcher-triggered load (id 2) is triggered after the
manual load (id 1) and completes first; the manual load completes last and
its result is the final library, even though it was triggered earlier. -/
theorem last_completion_wins_witness :
    (∀ e ∈ ([] : List (LoadEvent Nat)), e.isComplete = false) ∧
      runEvents (none : Option (Library Nat))
        [LoadEvent.trigger 1, LoadEvent.trigger 2,
          LoadEvent.complete 2 (some ⟨[("b", 2)]⟩),
          LoadEvent.complete 1 (some ⟨[("a", 1)]⟩)] =
        some ⟨[("a", 1)]⟩ :=
  ⟨fun e he => absurd he (List.not_mem_nil e),
    last_completion_wins (none : Option (Library Nat))
      [LoadEvent.trigger 1, LoadEvent.trigger 2,
        LoadEvent.complete 2 (some ⟨[("b", 2)]⟩)]
      1 (some ⟨[("a", 1)]⟩) []
      (fun e he => absurd he (List.not_mem_nil e))⟩

/-- C9: with an unset (empty) citation export path, `loadLibrary` returns
`null` while issuing one `console.warn` and never calling the load-error
notifier, in contrast with the read/parse failure path. -/
theorem loadLibrary_empty_path_warns_only {E : Type} (fmt : Format)
    (prev : Bool) (parsed : Except String (List RawRecord))
    (adapt : RawRecord → E) :
    loadLibrary (PluginSettings.mk "" fmt) prev parsed adapt =
      { result := none, notifierShowCalls := 0, consoleWarns := 1 } := by
  rfl

/-- C10: the note title produced by `getTitleForCitekey` contains no
disallowed filename character: every occurrence of one in the rendered
template output is replaced by an underscore. -/
theorem title_has_no_disallowed_chars (render : String → String)
    (ck : String) :
    (∀ c ∈ (getTitleForCitekey render ck).data,
        disallowedFilenameChar c = false) ∧
      (getTitleForCitekey render ck).data =
        (render ck).data.map
          (fun c => if disallowedFilenameChar c then '_' else c) := by
  constructor
  · intro c hc
    obtain ⟨c', _, rfl⟩ := List.mem_map.1 hc
    by_cases h : disallowedFilenameChar c'
    · rw [if_pos h]
      decide
    · rw [if_neg h]
      simpa using h
  · rfl

/-- Witness for C10: sanitizing a rendered title containing `*` and `:`. -/
theorem title_has_no_disallowed_chars_witness :
    disallowedFilenameChar '_' = false :=
  (title_has_no_disallowed_chars (fun s => s ++ "*:x") "note").1 '_'
    (by decide)

end Citations
